import Mathlib

/-!
Verification of the Achievement Tracking Engine of the Steam-Save-Monitor
repository. The Rust sources under src-tauri/src are shallowly embedded as
executable Lean definitions: SQLite rows become a list of `Achievement`
records, the scanners and watchers become pure functions over structured
inputs, and the lifecycle monitor becomes a step function on an explicit
state. Machine integers (u32, i64) are modeled as Nat / Int; the f32
`global_unlock_percentage` is only ever copied, never computed with, so it
is carried as an opaque `Option Int` value.
-/

namespace SSM

/-- Achievement row of the `achievements` table (achievements.rs, struct
`Achievement`): one row per (app_id, achievement_id, source), with the
surrogate `id` primary key. -/
structure Achievement where
  id : Option Int
  app_id : Nat
  game_name : String
  achievement_id : String
  display_name : String
  description : String
  icon_url : Option String
  icon_gray_url : Option String
  hidden : Bool
  achieved : Bool
  unlock_time : Option Int
  source : String
  last_updated : Int
  global_unlock_percentage : Option Int
deriving Repr, DecidableEq

/-- The database is the list of rows of the `achievements` table. -/
abbrev Database := List Achievement

/-- Rust `Option<i64>::filter(|&t| t > 0)`, used throughout the scanners and
watcher parsers on raw timestamps. -/
def posFilter (t : Option Int) : Option Int :=
  match t with
  | some v => if v > 0 then some v else none
  | none => none

/-- Fresh surrogate id for an inserted row (SQLite AUTOINCREMENT). -/
def nextId (db : Database) : Int :=
  (db.foldl (fun m a => max m ((a.id).getD 0)) 0) + 1

/-- `insert_or_update_achievement` (achievements.rs:89): INSERT, or on
conflict of UNIQUE(app_id, achievement_id, source) overwrite the mutable
fields (display_name, description, icons, hidden, achieved, unlock_time,
last_updated, global_unlock_percentage) of the conflicting row. -/
def insert_or_update_achievement (db : Database) (ach : Achievement) : Database :=
  if db.any (fun a =>
      a.app_id = ach.app_id ∧ a.achievement_id = ach.achievement_id ∧ a.source = ach.source) then
    db.map (fun a =>
      if a.app_id = ach.app_id ∧ a.achievement_id = ach.achievement_id ∧ a.source = ach.source then
        { a with
          display_name := ach.display_name
          description := ach.description
          icon_url := ach.icon_url
          icon_gray_url := ach.icon_gray_url
          hidden := ach.hidden
          achieved := ach.achieved
          unlock_time := ach.unlock_time
          last_updated := ach.last_updated
          global_unlock_percentage := ach.global_unlock_percentage }
      else a)
  else
    db ++ [{ ach with id := some (nextId db) }]

/-- `get_game_achievements` (achievements.rs:125): SELECT ... WHERE app_id =
?1 (row order is by achievement_id in SQL; here the stored order stands in
for the query order). -/
def get_game_achievements (db : Database) (app_id : Nat) : List Achievement :=
  db.filter (fun a => a.app_id = app_id)

/-- `delete_game_achievements` (achievements.rs:198): DELETE FROM
achievements WHERE app_id = ?1 — no filter on source. -/
def delete_game_achievements (db : Database) (app_id : Nat) : Database :=
  db.filter (fun a => ¬ a.app_id = app_id)

/-- `update_achievement_status` (achievements.rs:206): UPDATE achievements
SET achieved, unlock_time, last_updated WHERE id = ?4. The achieved flag
and the unlock time are written exactly as supplied by the caller. -/
def update_achievement_status (db : Database) (id : Int) (achieved : Bool)
    (unlock_time : Option Int) (now : Int) : Database :=
  db.map (fun a =>
    if a.id = some id then
      { a with achieved := achieved, unlock_time := unlock_time, last_updated := now }
    else a)

/-- `restore_from_backup` (main.rs:944): for every row of the game whose
achievement_id has a backup entry with an integer UnlockTime, set the row
unlocked with that time via `update_achievement_status`; a backup entry
whose UnlockTime is absent or non-integer is skipped (`none` here). -/
def restore_from_backup (db : Database) (app_id : Nat)
    (backup : List (String × Option Int)) (now : Int) : Database :=
  (get_game_achievements db app_id).foldl (fun acc a =>
    match backup.find? (fun p => p.1 == a.achievement_id) with
    | some (_, some t) =>
        match a.id with
        | some rid => update_achievement_status acc rid true (some t) now
        | none => acc
    | _ => acc) db

/-- One step of Rust `Iterator::max_by_key` on the unlocked counts: the
accumulator is kept only when strictly greater, so among equal maxima the
later element wins. -/
def maxByCountStep (acc x : String × Nat) : String × Nat :=
  if acc.2 > x.2 then acc else x

/-- `source_results.iter().max_by_key(|(_, count)| count)` (main.rs:291).
Rust's `max_by_key` returns the last element among several equal maxima. -/
def max_by_key_count : List (String × Nat) → Option (String × Nat)
  | [] => none
  | x :: xs => some (xs.foldl maxByCountStep x)

/-- PHASE 1 of `sync_achievements` (main.rs:226-287): the per-provider scan
results pushed in scan order Online-fix, Steamtools, Goldberg, Steam Web
API; `none` means the scan errored (or, for the web API, returned no
achievements), so nothing was pushed for that provider. -/
def source_results (onlinefix steamtools goldberg webapi : Option Nat) :
    List (String × Nat) :=
  (match onlinefix with | some c => [("Online-fix", c)] | none => [])
  ++ (match steamtools with | some c => [("Steamtools", c)] | none => [])
  ++ (match goldberg with | some c => [("Goldberg", c)] | none => [])
  ++ (match webapi with | some c => [("Steam Web API", c)] | none => [])

/-- PHASE 2 of `sync_achievements` (main.rs:289-292): the chosen provider is
the `max_by_key` of the collected results. -/
def choose_best_source (onlinefix steamtools goldberg webapi : Option Nat) :
    Option (String × Nat) :=
  max_by_key_count (source_results onlinefix steamtools goldberg webapi)

/-! ## Association map mirroring `std::collections::HashMap` inserts

Only insert / contains_key / get are used by the embedded code; an
association list with overwrite-on-insert has the same observable
behaviour at those operations. -/

/-- HashMap::insert — overwrites the binding of an existing key. -/
def alInsert {α : Type} (m : List (String × α)) (k : String) (v : α) :
    List (String × α) :=
  if m.any (fun p => p.1 == k) then
    m.map (fun p => if p.1 == k then (k, v) else p)
  else
    m ++ [(k, v)]

/-- HashMap::get. -/
def alGet {α : Type} (m : List (String × α)) (k : String) : Option α :=
  (m.find? (fun p => p.1 == k)).map (fun p => p.2)

/-- HashMap::contains_key. -/
def alContains {α : Type} (m : List (String × α)) (k : String) : Bool :=
  m.any (fun p => p.1 == k)

/-! ## PlatformCache (librarycache / Steamtools) scanner -/

/-- One object of the librarycache lists `vecHighlight`, `vecUnachieved`,
`vecAchievedHidden` as read by the scanner: the optional `strID`,
`bAchieved`, `rtUnlocked` JSON fields. -/
structure CacheEntry where
  strID : Option String
  bAchieved : Option Bool
  rtUnlocked : Option Int
deriving Repr, DecidableEq

/-- Achievement schema entry returned by `get_achievement_schema`
(steam_achievements.rs, struct `SteamAchievementSchema`). -/
structure SchemaEntry where
  name : String
  display_name : String
  description : Option String
  icon : Option String
  icon_gray : Option String
  hidden : Option Nat
deriving Repr, DecidableEq

/-- Processing of one `vecHighlight` entry
(achievement_scanner.rs:165-173): insert `(bAchieved, rtUnlocked > 0)`
under its strID. -/
def highlightStep (m : List (String × (Bool × Option Int))) (e : CacheEntry) :
    List (String × (Bool × Option Int)) :=
  match e.strID with
  | some id => alInsert m id (e.bAchieved.getD false, posFilter e.rtUnlocked)
  | none => m

/-- Processing of one `vecUnachieved` entry
(achievement_scanner.rs:176-182): insert `(false, none)` under its strID,
overwriting any earlier binding. -/
def unachievedStep (m : List (String × (Bool × Option Int))) (e : CacheEntry) :
    List (String × (Bool × Option Int)) :=
  match e.strID with
  | some id => alInsert m id (false, none)
  | none => m

/-- Processing of one `vecAchievedHidden` entry
(achievement_scanner.rs:184-199): insert `(true, time)` when achieved
(defaulting to achieved), and `(false, none)` only when the key is not
already present. -/
def achievedHiddenStep (m : List (String × (Bool × Option Int))) (e : CacheEntry) :
    List (String × (Bool × Option Int)) :=
  match e.strID with
  | some id =>
      let unlock_time := posFilter e.rtUnlocked
      let achieved := e.bAchieved.getD true
      if achieved then alInsert m id (true, unlock_time)
      else if ¬ alContains m id then alInsert m id (false, none)
      else m
  | none => m

/-- STEP 3 of `parse_librarycache_achievements`
(achievement_scanner.rs:161-199): build the `unlocked_map` from the three
cache lists, in the order vecHighlight, vecUnachieved, vecAchievedHidden. -/
def build_unlocked_map (vecHighlight vecUnachieved vecAchievedHidden : List CacheEntry) :
    List (String × (Bool × Option Int)) :=
  vecAchievedHidden.foldl achievedHiddenStep
    (vecUnachieved.foldl unachievedStep
      (vecHighlight.foldl highlightStep []))

/-- STEP 4 of `parse_librarycache_achievements`
(achievement_scanner.rs:201-248): emit one row per schema entry with
source "Steamtools", taking the unlock state from the merged map (default
locked). `global_percentages` is the optional map fetched from the web
API. -/
def parse_librarycache_achievements (app_id : Nat) (game_name : String)
    (steam_schema : List SchemaEntry) (global_percentages : Option (List (String × Int)))
    (vecHighlight vecUnachieved vecAchievedHidden : List CacheEntry) (now : Int) :
    List Achievement :=
  let m := build_unlocked_map vecHighlight vecUnachieved vecAchievedHidden
  steam_schema.map (fun s =>
    let st := (alGet m s.name).getD (false, none)
    { id := none
      app_id := app_id
      game_name := game_name
      achievement_id := s.name
      display_name := s.display_name
      description := s.description.getD ""
      icon_url := s.icon
      icon_gray_url := s.icon_gray
      hidden := s.hidden.getD 0 == 1
      achieved := st.1
      unlock_time := st.2
      source := "Steamtools"
      last_updated := now
      global_unlock_percentage := global_percentages.bind (fun l => alGet l s.name) })

/-! ## Goldberg (EmulatorA) scanner -/

/-- One value of the Goldberg achievements.json map as read by the
scanner: the optional `earned` and `earned_time` JSON fields. -/
structure GoldbergEntry where
  earned : Option Bool
  earned_time : Option Int
deriving Repr, DecidableEq

/-- Row construction of `scan_goldberg_achievements`
(achievement_scanner.rs:392-444): each JSON entry becomes one row with
source "Goldberg"; `achieved` is the `earned` flag (default false) and
`unlock_time` is `earned_time` filtered to positive values — the two are
copied independently of each other. `schema_pairs` maps an api name to
(display_name, description). -/
def scan_goldberg_achievements (app_id : Nat) (game_name : String)
    (schema_pairs : List (String × (String × String)))
    (global_percentages : Option (List (String × Int)))
    (entries : List (String × GoldbergEntry)) (now : Int) : List Achievement :=
  entries.map (fun e =>
    let earned := e.2.earned.getD false
    let earned_time := posFilter e.2.earned_time
    let nd := (alGet schema_pairs e.1).getD (e.1, "")
    { id := none
      app_id := app_id
      game_name := game_name
      achievement_id := e.1
      display_name := nd.1
      description := nd.2
      icon_url := none
      icon_gray_url := none
      hidden := false
      achieved := earned
      unlock_time := earned_time
      source := "Goldberg"
      last_updated := now
      global_unlock_percentage := global_percentages.bind (fun l => alGet l e.1) })

/-! ## Online-fix (EmulatorB) scanner: section-name-to-schema resolution

`scan_onlinefix_achievements` (achievement_scanner.rs:556-908) resolves
each unlocked INI section name to a 0-based index into the schema list
`steam_by_index`. Schema entries are triples
(api_name, display_name, description). -/

/-- Substring test, mirroring Rust `str::contains(&str)`. -/
def containsSub (s pat : String) : Bool :=
  decide (pat.toList <:+: s.toList)

/-- The capture of `number_regex = (\d+)$` on a section name: the maximal
digit suffix, empty when the name does not end in a digit. -/
def trailingDigits (s : String) : List Char :=
  (s.toList.reverse.takeWhile Char.isDigit).reverse

/-- Numeric value of a digit string (Rust `parse::<usize>`; the overflow
failure of `parse` coincides with the out-of-range rejection below). -/
def digitsToNat (ds : List Char) : Nat :=
  ds.foldl (fun n c => 10 * n + (c.toNat - 48)) 0

/-- `prefix_regex = ^(?i)(ACH_|ACHIEVEMENT_)` applied with `replace` to the
section name: strips one leading case-insensitive marker. -/
def stripAchMarker (s : String) : String :=
  if s.toLower.startsWith "ach_" then s.drop 4
  else if s.toLower.startsWith "achievement_" then s.drop 12
  else s

/-- Segments of the cleaned section name: split on non-alphanumeric
characters, dropping empty pieces (achievement_scanner.rs:665-668). -/
def segmentsOf (s : String) : List String :=
  ((s.toList.splitOnP (fun c => ¬ c.isAlphanum)).map (fun l => String.mk l)).filter
    (fun seg => seg ≠ "")

/-- All-caps test of a segment (achievement_scanner.rs:677): every character
is either non-alphabetic or uppercase. -/
def isAllCaps (seg : String) : Bool :=
  seg.toList.all (fun c => ¬ c.isAlpha || c.isUpper)

/-- Keyword splitting of one non-all-caps segment
(achievement_scanner.rs:683-707): a word boundary falls at every
letter-digit transition and before an uppercase letter not preceded by a
digit; words are lowercased. -/
def splitSegment (seg : String) : List String :=
  let st := seg.toList.foldl (fun (st : List String × String × Bool) ch =>
    let isDigit := ch.isDigit
    if st.2.1 ≠ "" ∧ ((st.2.2 ≠ isDigit) ∨ (ch.isUpper ∧ st.2.2 = false)) then
      (st.1 ++ [st.2.1.toLower], String.singleton ch, isDigit)
    else
      (st.1, st.2.1.push ch, isDigit)) ([], "", false)
  if st.2.1 ≠ "" then st.1 ++ [st.2.1.toLower] else st.1

/-- Keyword extraction from the cleaned section name
(achievement_scanner.rs:665-713): all-caps segments stay whole, other
segments are split at case/digit boundaries; keywords of length ≤ 2 are
dropped unless purely numeric. -/
def extract_keywords (cleaned : String) : List String :=
  let segs := segmentsOf cleaned
  let kws := segs.foldl (fun acc seg =>
    if isAllCaps seg ∧ seg.length > 0 then acc ++ [seg.toLower]
    else acc ++ splitSegment seg) []
  kws.filter (fun k => k.length > 2 ∨ k.toList.all Char.isDigit)

/-- `get_word_root` (achievement_scanner.rs:722-730): strip the first
matching suffix of the fixed list when the word is long enough. -/
def get_word_root (word : String) : String :=
  let suffixes := ["iac", "ic", "al", "er", "ing", "ed", "ly", "ness", "ment", "ous", "ful"]
  match suffixes.find? (fun suf => word.length > suf.length + 2 && word.endsWith suf) with
  | some suf => word.dropRight suf.length
  | none => word

/-- The fixed synonym clusters of `is_synonym`
(achievement_scanner.rs:733-753). -/
def synonym_groups : List (List String) :=
  [["boundless", "without", "bounds", "endless", "infinite", "unlimited"],
   ["rage", "anger", "fury", "wrath"],
   ["support", "helper", "assist", "aid"],
   ["specialist", "expert", "master", "main"],
   ["true", "real", "genuine", "authentic"],
   ["kill", "slay", "defeat", "destroy", "eliminate"],
   ["win", "victory", "triumph", "conquer"],
   ["lose", "defeat", "fail", "loss"],
   ["complete", "finish", "done", "accomplish"],
   ["first", "initial", "beginning"]]

/-- `is_synonym` (achievement_scanner.rs:733-753). -/
def is_synonym (w1 w2 : String) : Bool :=
  synonym_groups.any (fun g => g.contains w1 ∧ g.contains w2)

/-- `fuzzy_char_match` (achievement_scanner.rs:756-773): both words of
length ≥ 4 and at least 70 % of the shorter word's characters occur in the
longer (the f32 ratio test `m / n ≥ 0.7` on these small integer operands
is exactly the integer test `10 m ≥ 7 n`). -/
def fuzzy_char_match (w1 w2 : String) : Bool :=
  if w1.length < 4 ∨ w2.length < 4 then false
  else
    let shorter := if w1.length < w2.length then w1 else w2
    let longer := if w1.length < w2.length then w2 else w1
    let ms := (shorter.toList.filter (fun ch => longer.toList.contains ch)).length
    10 * ms ≥ 7 * shorter.length

/-- One keyword's match test against the combined lowercased
name-and-description text (achievement_scanner.rs:783-835): direct
substring, then per word of the text: substring either direction, common
root, synonym, 70 % character overlap, or equality up to the final
character. -/
def keyword_token_match (kw : String) (combined : String) : Bool :=
  if containsSub combined kw then true
  else
    let kw_root := get_word_root kw
    (combined.toList.splitOnP (fun c => ¬ c.isAlphanum)).any (fun wl =>
      let word := (String.mk wl).trim
      if word = "" ∨ kw = "" then false
      else
        containsSub kw word ∨ containsSub word kw
        ∨ (let word_root := get_word_root word
           kw_root.length ≥ 4 ∧ word_root.length ≥ 4 ∧
             (kw_root = word_root ∨ containsSub kw_root word_root ∨
               containsSub word_root kw_root))
        ∨ is_synonym kw word
        ∨ fuzzy_char_match kw word
        ∨ (kw.length ≥ 4 ∧ word.length ≥ 4 ∧ kw.dropRight 1 = word.dropRight 1))

/-- Keyword-score search over the schema rows
(achievement_scanner.rs:777-852): the first row whose combined lowercased
display name and description matches at least max(1, ⌊|keywords|/2⌋)
keywords. -/
def keyword_match_position (steam_by_index : List (String × String))
    (keywords : List String) : Option Nat :=
  steam_by_index.findIdx? (fun p =>
    let desc_lower := (p.2.toLower).replace "_" " "
    let name_lower := (p.1.toLower).replace "_" " "
    let combined := name_lower ++ " " ++ desc_lower
    let ms := (keywords.filter (fun kw => keyword_token_match kw combined)).length
    let threshold := max (keywords.length / 2) 1
    ¬ keywords.isEmpty ∧ ms ≥ threshold)

/-- Full resolution of an unlocked INI section name to a schema index
(achievement_scanner.rs:627-860): 1. exact api-name lookup (HashMap keeps
the last duplicate), re-located by display name; 2. trailing number used
as a 1-based index, binding nothing when out of range; 3. marker-stripped,
underscore-to-space, case-insensitive display-name match; 4. keyword-score
match. -/
def resolve_section (steam_achievements : List (String × String × String))
    (section_name : String) : Option Nat :=
  let steam_by_index := steam_achievements.map (fun t => (t.2.1, t.2.2))
  match steam_achievements.reverse.find? (fun t => t.1 == section_name) with
  | some t => steam_by_index.findIdx? (fun p => p.1 == t.2.1)
  | none =>
    match trailingDigits section_name with
    | [] =>
      let cleaned := stripAchMarker section_name
      let name_with_spaces := cleaned.replace "_" " "
      match steam_by_index.findIdx?
          (fun p => p.1.toLower == name_with_spaces.toLower) with
      | some idx => some idx
      | none => keyword_match_position steam_by_index (extract_keywords cleaned)
    | ds =>
      let n := digitsToNat ds
      if 0 < n ∧ n ≤ steam_by_index.length then some (n - 1) else none

/-! ## Game lifecycle monitor (steam_monitor.rs) -/

/-- A detected game (steam_monitor.rs, struct `GameInfo`). -/
structure GameInfo where
  app_id : Nat
  name : String
deriving Repr, DecidableEq

/-- Lifecycle events (steam_monitor.rs, enum `GameEvent`). -/
inductive GameEvent where
  | Started (g : GameInfo)
  | Ended (g : GameInfo)
deriving Repr, DecidableEq

/-- Monitor state (steam_monitor.rs, fields `last_running_appid` and
`current_game` of `SteamMonitor`). -/
structure MonitorState where
  last_running_appid : Option Nat
  current_game : Option GameInfo
deriving Repr, DecidableEq

/-- Modelled from the spec: the dynamic Exclusion-set check of
`get_running_game` is missing from the copy of steam_monitor.rs in src —
main.rs calls `monitor.set_db_path` "for exclusions checking" and
achievements.rs lacks the exclusion table code it refers to. Per the spec
(§4.6), games present in the persisted Exclusion set are filtered from the
observed running set before transition evaluation. The hardcoded skip of
AppID 388080 is in src (steam_monitor.rs:281). `procs` is the list of
running processes already resolved to known games, in scan order; the
first surviving entry wins. -/
def get_running_game (exclusions : List Nat) (procs : List GameInfo) :
    Option GameInfo :=
  procs.find? (fun g => !(g.app_id == 388080) && !(exclusions.contains g.app_id))

/-- `check_steam` (steam_monitor.rs:318-359): one poll of the transition
state machine, returning the emitted event (if any) and the new state. -/
def check_steam (exclusions : List Nat) (s : MonitorState) (procs : List GameInfo) :
    Option GameEvent × MonitorState :=
  let current_running := get_running_game exclusions procs
  let current_appid := current_running.map (fun g => g.app_id)
  match s.last_running_appid, current_appid with
  | none, some app_id =>
    (match current_running with
     | some game =>
         (some (GameEvent.Started game),
          { last_running_appid := some app_id, current_game := some game })
     | none => (none, s))
  | some _, none =>
    (match s.current_game with
     | some old_game =>
         (some (GameEvent.Ended old_game),
          { last_running_appid := none, current_game := none })
     | none => (none, { s with last_running_appid := none }))
  | some old_app_id, some new_app_id =>
    if old_app_id ≠ new_app_id then
      (match s.current_game with
       | some old_game =>
           (some (GameEvent.Ended old_game),
            { last_running_appid := some new_app_id, current_game := current_running })
       | none => (none, s))
    else (none, s)
  | none, none => (none, s)

/-- A sequence of polls: each element of `trace` is the process observation
of one poll; the emitted events are concatenated in order. -/
def run_monitor (exclusions : List Nat) :
    MonitorState → List (List GameInfo) → List GameEvent
  | _, [] => []
  | s, procs :: rest =>
    let step := check_steam exclusions s procs
    step.1.toList ++ run_monitor exclusions step.2 rest

/-! ## Orchestrator: provider probing on game start
(achievement_watcher.rs) -/

/-- The provider kinds (achievement_watcher.rs, enum
`AchievementSourceType`). -/
inductive SourceType where
  | OnlineFix
  | LibraryCache
  | Goldberg
  | SteamWebApi
deriving Repr, DecidableEq

/-- The filesystem facts the watcher probes: whether each provider's file
exists, whether a Steam user id is configured, and whether the APPDATA
variable resolves. -/
structure FsView where
  onlinefixExists : Bool
  steamUserConfigured : Bool
  librarycacheExists : Bool
  appdataAvailable : Bool
  goldbergExists : Bool
deriving Repr, DecidableEq

/-- `find_specific_source` (achievement_watcher.rs:187-264): probe only the
named provider's file. -/
def find_specific_source (fs : FsView) (source_name : String) : Option SourceType :=
  if source_name = "Online-fix" then
    if fs.onlinefixExists then some SourceType.OnlineFix else none
  else if source_name = "Steamtools" then
    if fs.steamUserConfigured ∧ fs.librarycacheExists then some SourceType.LibraryCache
    else none
  else if source_name = "Goldberg" then
    if fs.appdataAvailable ∧ fs.goldbergExists then some SourceType.Goldberg else none
  else none

/-- `find_achievement_source` (achievement_watcher.rs:86-160): priority
search OnlineFix → LibraryCache → Goldberg; AppID 388080 is skipped
outright, and a missing APPDATA variable aborts the whole search (`?`). -/
def find_achievement_source (fs : FsView) (app_id : Nat) : Option SourceType :=
  if app_id = 388080 then none
  else if fs.onlinefixExists then some SourceType.OnlineFix
  else if fs.steamUserConfigured ∧ fs.librarycacheExists then some SourceType.LibraryCache
  else if ¬ fs.appdataAvailable then none
  else if fs.goldbergExists then some SourceType.Goldberg
  else none

/-- Outcome of `start_watching_game`: a file watcher bound to one provider,
or insertion into the pending map. -/
inductive WatchOutcome where
  | watched (s : SourceType)
  | pending
deriving Repr, DecidableEq

/-- `start_watching_game` (achievement_watcher.rs:267-313): when the store
has rows for the game, probe the provider of the first row; if its file is
found, watch it and return. Otherwise — including when that bound file is
missing — fall through to the `find_achievement_source` priority search,
and only when that also finds nothing insert the game into `pending`. -/
def start_watching_game (fs : FsView) (app_id : Nat) (rows : List Achievement) :
    WatchOutcome :=
  let fallback :=
    match find_achievement_source fs app_id with
    | some src => WatchOutcome.watched src
    | none => WatchOutcome.pending
  match rows.head? with
  | some first_ach =>
    (match find_specific_source fs first_ach.source with
     | some src => WatchOutcome.watched src
     | none => fallback)
  | none => fallback

/-- The app_ids for which the monitor loop of `start_monitors`
(main.rs:1248-1259) creates a file watcher: one `start_watching_game` call
per `Started` event, counted only when it binds a provider. `rowsOf` gives
the store's rows per game. -/
def watchers_created (fs : FsView) (rowsOf : Nat → List Achievement)
    (events : List GameEvent) : List Nat :=
  events.filterMap (fun e =>
    match e with
    | GameEvent.Started g =>
      (match start_watching_game fs g.app_id (rowsOf g.app_id) with
       | WatchOutcome.watched _ => some g.app_id
       | WatchOutcome.pending => none)
    | GameEvent.Ended _ => none)

/-! ## Unlock watcher reparse (achievement_watcher.rs) -/

/-- One INI section of the Online-fix achievements file as seen through the
watcher's regexes: the section name, the word captured from the first
`achieved = <word>` line (if any), and the first `timestamp = <digits>`
line's value when it parsed (absent or overflowing digits give `none`). -/
structure IniSection where
  name : String
  achieved_raw : Option String
  timestamp_val : Option Int
deriving Repr, DecidableEq

/-- `parse_onlinefix_unlocks` (achievement_watcher.rs:525-574): every
section whose achieved word lowercases to "true" yields
(section name, timestamp), substituting the current epoch time `now` when
the timestamp is absent or not positive. -/
def parse_onlinefix_unlocks (sections : List IniSection) (now : Int) :
    List (String × Int) :=
  sections.filterMap (fun sec =>
    let achieved := (sec.achieved_raw.map (fun w => w.toLower == "true")).getD false
    if achieved then some (sec.name, (posFilter sec.timestamp_val).getD now)
    else none)

/-- `parse_librarycache_unlocks` (achievement_watcher.rs:577-662): walk
`vecHighlight` (achieved defaulting to false) then `vecAchievedHidden`
(achieved defaulting to true); each achieved entry with a strID yields its
rtUnlocked when positive, else the current epoch time `now`. -/
def parse_librarycache_unlocks (vecHighlight vecAchievedHidden : List CacheEntry)
    (now : Int) : List (String × Int) :=
  (vecHighlight.filterMap (fun a =>
    let achieved := a.bAchieved.getD false
    let t := (posFilter a.rtUnlocked).getD now
    if achieved then a.strID.map (fun id => (id, t)) else none))
  ++ (vecAchievedHidden.filterMap (fun a =>
    let achieved := a.bAchieved.getD true
    let t := (posFilter a.rtUnlocked).getD now
    if achieved then a.strID.map (fun id => (id, t)) else none))

/-- `parse_goldberg_unlocks` (achievement_watcher.rs:665-693): every earned
entry yields its earned_time when positive, else the current epoch time
`now`. -/
def parse_goldberg_unlocks (entries : List (String × GoldbergEntry)) (now : Int) :
    List (String × Int) :=
  entries.filterMap (fun e =>
    if e.2.earned.getD false then some (e.1, (posFilter e.2.earned_time).getD now)
    else none)

/-- The record published for each unlock (achievement_watcher.rs, struct
`AchievementUnlockEvent`). -/
structure UnlockEvent where
  app_id : Nat
  game_name : String
  achievement_id : String
  display_name : String
  description : String
  icon_url : Option String
  unlock_time : Int
  source : String
  global_unlock_percentage : Option Int
deriving Repr, DecidableEq

/-- `check_for_unlocks` (achievement_watcher.rs:409-522) after the file has
been parsed into `unlocks`: rows of the game are indexed once by
achievement_id; for every parsed unlock whose indexed row is still locked,
the row is marked unlocked via `update_achievement_status`, then — when a
global percentage was fetched and the row had none — the stale pre-unlock
row with only the percentage changed is written back through
`insert_or_update_achievement`, and an `UnlockEvent` is emitted. Returns
(emitted events, updated database). -/
def check_for_unlocks (app_id : Nat) (game_name : String) (source_str : String)
    (db : Database) (unlocks : List (String × Int))
    (global_percentages : Option (List (String × Int))) (now : Int) :
    List UnlockEvent × Database :=
  let db_map := (get_game_achievements db app_id).foldl
    (fun m a => alInsert m a.achievement_id a) []
  unlocks.foldl (fun acc u =>
    match alGet db_map u.1 with
    | some db_ach =>
      if db_ach.achieved = false then
        let gp := global_percentages.bind (fun l => alGet l u.1)
        let db1 :=
          match db_ach.id with
          | some rid =>
            let db0 := update_achievement_status acc.2 rid true (some u.2) now
            if gp.isSome ∧ db_ach.global_unlock_percentage = none then
              insert_or_update_achievement db0
                { db_ach with global_unlock_percentage := gp }
            else db0
          | none => acc.2
        let ev : UnlockEvent :=
          { app_id := app_id
            game_name := game_name
            achievement_id := u.1
            display_name := db_ach.display_name
            description := db_ach.description
            icon_url := db_ach.icon_url
            unlock_time := u.2
            source := source_str
            global_unlock_percentage :=
              match gp with
              | some p => some p
              | none => db_ach.global_unlock_percentage }
        (acc.1 ++ [ev], db1)
      else acc
    | none => acc) ([], db)

/-- Invariant 1 of the spec's data model (section 3): a row with a known
unlock time is unlocked. -/
def UnlockTimeInv (a : Achievement) : Prop :=
  a.unlock_time ≠ none → a.achieved = true

/-! ## General lemmas about the embedded operations -/

/-- A positive default keeps the watcher parsers' substituted times
positive. -/
theorem posFilter_getD_pos (o : Option Int) (now : Int) (h : 0 < now) :
    0 < (posFilter o).getD now := by
  cases o with
  | none => exact h
  | some v =>
    by_cases hv : v > 0
    · simp only [posFilter, if_pos hv, Option.getD_some]
      exact hv
    · simp only [posFilter, if_neg hv, Option.getD_none]
      exact h

/-- One `find?` step at a matching head. -/
theorem find?_cons_true {α : Type} (f : α → Bool) (a : α) (l : List α) (h : f a = true) :
    (a :: l).find? f = some a := by
  simp only [List.find?, h]

/-- One `find?` step at a non-matching head. -/
theorem find?_cons_false {α : Type} (f : α → Bool) (a : α) (l : List α) (h : f a = false) :
    (a :: l).find? f = l.find? f := by
  simp only [List.find?, h]

/-- Replacing the bindings of key `q` leaves `find?` for `q` at the
replacement value, provided some binding of `q` exists. -/
theorem find?_map_replace_self {α : Type} (m : List (String × α)) (q : String) (v : α)
    (hany : m.any (fun p => p.1 == q) = true) :
    (m.map (fun p => if p.1 == q then (q, v) else p)).find? (fun p => p.1 == q) =
      some (q, v) := by
  induction m with
  | nil => simp at hany
  | cons p m ih =>
    rw [List.map_cons]
    by_cases hp : (p.1 == q) = true
    · rw [if_pos hp]
      exact find?_cons_true _ _ _ (by simp)
    · rw [Bool.not_eq_true] at hp
      have hm : m.any (fun p => p.1 == q) = true := by
        simpa [hp] using hany
      rw [if_neg (by simp [hp]), find?_cons_false (fun r => r.1 == q) p _ hp]
      exact ih hm

/-- Replacing the bindings of key `q` does not change `find?` for a key
other than `q`. -/
theorem find?_map_replace_ne {α : Type} (m : List (String × α)) (k q : String) (v : α)
    (hkq : k ≠ q) :
    (m.map (fun p => if p.1 == q then (q, v) else p)).find? (fun p => p.1 == k) =
      m.find? (fun p => p.1 == k) := by
  induction m with
  | nil => rfl
  | cons p m ih =>
    rw [List.map_cons]
    by_cases hp : (p.1 == q) = true
    · have hpq : p.1 = q := by simpa [beq_iff_eq] using hp
      have hqk : ((q : String) == k) = false := beq_eq_false_iff_ne.mpr (Ne.symm hkq)
      have hpk : (p.1 == k) = false := by rw [hpq]; exact hqk
      rw [if_pos hp, find?_cons_false (fun r => r.1 == k) (q, v) _ hqk,
        find?_cons_false (fun r => r.1 == k) p _ hpk]
      exact ih
    · rw [Bool.not_eq_true] at hp
      rw [if_neg (by simp [hp])]
      by_cases hpk : (p.1 == k) = true
      · rw [find?_cons_true (fun r => r.1 == k) p _ hpk,
          find?_cons_true (fun r => r.1 == k) p _ hpk]
      · rw [Bool.not_eq_true] at hpk
        rw [find?_cons_false (fun r => r.1 == k) p _ hpk,
          find?_cons_false (fun r => r.1 == k) p _ hpk]
        exact ih

/-- HashMap-style lookup after insert: the inserted key reads back the new
value, every other key is untouched. -/
theorem alGet_alInsert {α : Type} (m : List (String × α)) (k q : String) (v : α) :
    alGet (alInsert m q v) k = if k = q then some v else alGet m k := by
  unfold alGet alInsert
  by_cases hany : m.any (fun p => p.1 == q) = true
  · rw [if_pos hany]
    by_cases hkq : k = q
    · subst hkq
      rw [find?_map_replace_self m k v hany, if_pos rfl]
      rfl
    · rw [find?_map_replace_ne m k q v hkq, if_neg hkq]
  · rw [if_neg hany, List.find?_append]
    by_cases hkq : k = q
    · subst hkq
      have hnone : m.find? (fun p => p.1 == k) = none := by
        rw [List.find?_eq_none]
        intro x hx hpx
        exact hany (List.any_eq_true.mpr ⟨x, hx, hpx⟩)
      rw [hnone, if_pos rfl, find?_cons_true (fun p => p.1 == k) (k, v) [] (by simp)]
      rfl
    · have hqk : ((q : String) == k) = false := beq_eq_false_iff_ne.mpr (Ne.symm hkq)
      have h2 : ([(q, v)].find? (fun p => p.1 == k)) = none := by
        rw [find?_cons_false (fun p => p.1 == k) (q, v) [] hqk]
        rfl
      rw [h2, if_neg hkq]
      cases m.find? (fun p => p.1 == k) <;> rfl

/-! ## C1: arbitration and tie-breaking (`sync_achievements`) -/

/-- Unfolded behaviour of the `max_by_key` fold: either the seed survived
with every later element strictly below it, or the result occurs in the
list with everything after that occurrence strictly below it. -/
theorem foldl_maxByCountStep_spec (xs : List (String × Nat)) :
    ∀ a : String × Nat,
      ((∀ x ∈ xs, x.2 < a.2) ∧ xs.foldl maxByCountStep a = a)
      ∨ ∃ l₁ l₂, xs = l₁ ++ (xs.foldl maxByCountStep a) :: l₂ ∧
          (∀ x ∈ l₂, x.2 < (xs.foldl maxByCountStep a).2) ∧
          a.2 ≤ (xs.foldl maxByCountStep a).2 ∧
          (∀ x ∈ l₁, x.2 ≤ (xs.foldl maxByCountStep a).2) := by
  induction xs with
  | nil => exact fun a => Or.inl ⟨by simp, rfl⟩
  | cons x xs ih =>
    intro a
    rw [List.foldl_cons]
    by_cases h : a.2 > x.2
    · rw [show maxByCountStep a x = a from if_pos h]
      rcases ih a with ⟨hall, heq⟩ | ⟨l₁, l₂, hd, h2, hle, h1⟩
      · left
        refine ⟨?_, heq⟩
        intro y hy
        rcases List.mem_cons.mp hy with rfl | hy'
        · exact h
        · exact hall y hy'
      · right
        refine ⟨x :: l₁, l₂, by rw [List.cons_append, ← hd], h2, hle, ?_⟩
        intro y hy
        rcases List.mem_cons.mp hy with rfl | hy'
        · exact le_trans (le_of_lt h) hle
        · exact h1 y hy'
    · rw [show maxByCountStep a x = x from if_neg h]
      have hax : a.2 ≤ x.2 := Nat.le_of_not_lt h
      rcases ih x with ⟨hall, heq⟩ | ⟨l₁, l₂, hd, h2, hle, h1⟩
      · right
        refine ⟨[], xs, ?_, ?_, ?_, by simp⟩
        · simp [heq]
        · intro y hy; rw [heq]; exact hall y hy
        · rw [heq]; exact hax
      · right
        refine ⟨x :: l₁, l₂, by rw [List.cons_append, ← hd], h2, le_trans hax hle, ?_⟩
        intro y hy
        rcases List.mem_cons.mp hy with rfl | hy'
        · exact hle
        · exact h1 y hy'

/-- C1 counterexample: with every provider observing zero unlocks
(Online-fix, Steamtools and Goldberg all report 0, the web API pushed
nothing), the arbiter of `sync_achievements` picks Goldberg — not
Steamtools, the PlatformCache provider the claim's fixed priority order
demands for an all-zero tie. -/
theorem arbitration_tie_counterexample :
    choose_best_source (some 0) (some 0) (some 0) none = some ("Goldberg", 0) ∧
    choose_best_source (some 0) (some 0) (some 0) none ≠ some ("Steamtools", 0) := by
  constructor
  · rfl
  · decide

/-- C1 (amended): the chosen provider carries a maximal
unlocked count, but a tie is broken in favour of the provider pushed
LATEST in the scan order Online-fix, Steamtools, Goldberg, Steam Web API
(Rust `max_by_key` keeps the last maximum): every result after the chosen
occurrence is strictly smaller. -/
theorem arbitration_picks_last_maximum (onlinefix steamtools goldberg webapi : Option Nat)
    (b : String × Nat)
    (hb : choose_best_source onlinefix steamtools goldberg webapi = some b) :
    b ∈ source_results onlinefix steamtools goldberg webapi ∧
    (∀ x ∈ source_results onlinefix steamtools goldberg webapi, x.2 ≤ b.2) ∧
    ∃ l₁ l₂, source_results onlinefix steamtools goldberg webapi = l₁ ++ b :: l₂ ∧
      ∀ x ∈ l₂, x.2 < b.2 := by
  unfold choose_best_source at hb
  rcases hsr : source_results onlinefix steamtools goldberg webapi with _ | ⟨y, ys⟩
  · rw [hsr] at hb
    exact absurd hb (by simp [max_by_key_count])
  · rw [hsr] at hb
    have hbv : ys.foldl maxByCountStep y = b := by
      simpa [max_by_key_count] using hb
    rcases foldl_maxByCountStep_spec ys y with ⟨hall, heq⟩ | ⟨l₁, l₂, hd, h2, hle, h1⟩
    · have hby : b = y := by rw [← hbv, heq]
      subst hby
      refine ⟨List.mem_cons_self _ _, ?_, [], ys, rfl, hall⟩
      intro x hx
      rcases List.mem_cons.mp hx with rfl | hx'
      · exact le_refl _
      · exact le_of_lt (hall x hx')
    · rw [hbv] at hd h2 hle h1
      refine ⟨?_, ?_, y :: l₁, l₂, ?_, h2⟩
      · exact List.mem_cons.mpr (Or.inr (hd ▸ List.mem_append.mpr
          (Or.inr (List.mem_cons_self _ _))))
      · intro x hx
        rcases List.mem_cons.mp hx with rfl | hx'
        · exact hle
        · rw [hd] at hx'
          rcases List.mem_append.mp hx' with hx1 | hx2
          · exact h1 x hx1
          · rcases List.mem_cons.mp hx2 with rfl | hx3
            · exact le_refl _
            · exact le_of_lt (h2 x hx3)
      · rw [List.cons_append, ← hd]

/-- C1 witness: the amended statement applied at the all-zero tie, where
the chosen source is ("Goldberg", 0), the last of the three pushed
results. -/
theorem arbitration_picks_last_maximum_witness :
    ("Goldberg", 0) ∈ source_results (some 0) (some 0) (some 0) none ∧
    (∀ x ∈ source_results (some 0) (some 0) (some 0) none,
      x.2 ≤ (("Goldberg", 0) : String × Nat).2) ∧
    ∃ l₁ l₂, source_results (some 0) (some 0) (some 0) none = l₁ ++ ("Goldberg", 0) :: l₂ ∧
      ∀ x ∈ l₂, x.2 < (("Goldberg", 0) : String × Nat).2 :=
  arbitration_picks_last_maximum (some 0) (some 0) (some 0) none ("Goldberg", 0) rfl

/-! ## C2: the pre-rebind bulk delete (`delete_game_achievements`) -/

/-- C2 counterexample: a Manual row of game 730 does not survive
`delete_game_achievements 730` — the DELETE has no source filter, while
the claim requires Manual rows to be kept. -/
theorem delete_manual_row_counterexample :
    delete_game_achievements
      [{ id := some 1, app_id := 730, game_name := "G", achievement_id := "m1",
         display_name := "M", description := "", icon_url := none, icon_gray_url := none,
         hidden := false, achieved := true, unlock_time := some 10, source := "Manual",
         last_updated := 0, global_unlock_percentage := none }] 730 = [] := by
  rfl

/-- C2 (amended): the bulk delete performed before a provider re-bind
removes every row of that game — Manual rows included — and leaves the
rows of every other game present and unchanged: a row survives exactly
when it belongs to a different game. -/
theorem delete_game_achievements_spec (db : Database) (g : Nat) (a : Achievement) :
    a ∈ delete_game_achievements db g ↔ a ∈ db ∧ a.app_id ≠ g := by
  simp [delete_game_achievements, List.mem_filter]

/-! ## C3: the librarycache three-list merge -/

/-- Folding `vecAchievedHidden` entries none of which carry key `k` leaves
the binding of `k` unchanged. -/
theorem foldl_achievedHiddenStep_preserves (k : String) :
    ∀ l : List CacheEntry, (∀ e ∈ l, e.strID ≠ some k) →
      ∀ m, alGet (l.foldl achievedHiddenStep m) k = alGet m k := by
  intro l
  induction l with
  | nil => intro _ m; rfl
  | cons e l ih =>
    intro h m
    rw [List.foldl_cons]
    have hstep : alGet (achievedHiddenStep m e) k = alGet m k := by
      cases hs : e.strID with
      | none => simp [achievedHiddenStep, hs]
      | some id =>
        have hid : ¬ k = id := by
          intro hk
          exact h e (List.mem_cons_self e l) (by rw [hs, hk])
        simp only [achievedHiddenStep, hs]
        split_ifs with h1 h2
        · rw [alGet_alInsert, if_neg hid]
        · rfl
        · rw [alGet_alInsert, if_neg hid]
    rw [ih (fun e' he' => h e' (List.mem_cons_of_mem e he')) (achievedHiddenStep m e), hstep]

/-- When key `k` occurs in `vecAchievedHidden` and every one of its
occurrences is achieved, the final map binds `k` as unlocked, whatever the
earlier lists produced. -/
theorem foldl_achievedHiddenStep_achieved (k : String) :
    ∀ l : List CacheEntry, (∃ e ∈ l, e.strID = some k) →
      (∀ e ∈ l, e.strID = some k → e.bAchieved.getD true = true) →
      ∀ m, ∃ t, alGet (l.foldl achievedHiddenStep m) k = some (true, t) := by
  intro l
  induction l with
  | nil =>
    rintro ⟨e, he, -⟩ _ _
    exact absurd he (List.not_mem_nil e)
  | cons e l ih =>
    rintro ⟨e0, he0, hs0⟩ hall m
    rw [List.foldl_cons]
    by_cases hrest : ∃ e' ∈ l, e'.strID = some k
    · exact ih hrest (fun e' he' => hall e' (List.mem_cons_of_mem e he')) _
    · have he0e : e0 = e := by
        rcases List.mem_cons.mp he0 with h | h
        · exact h
        · exact absurd ⟨e0, h, hs0⟩ hrest
      subst he0e
      have hach : e0.bAchieved.getD true = true :=
        hall e0 (List.mem_cons_self _ _) hs0
      have hnone : ∀ e' ∈ l, e'.strID ≠ some k := by
        intro e' he' hc
        exact hrest ⟨e', he', hc⟩
      rw [foldl_achievedHiddenStep_preserves k l hnone]
      refine ⟨posFilter e0.rtUnlocked, ?_⟩
      simp only [achievedHiddenStep, hs0, hach, if_true]
      rw [alGet_alInsert, if_pos rfl]

/-- C3 counterexample: the key "k" appears in vecHighlight with
`bAchieved = true` and also in vecUnachieved; the merged row emitted for
it is LOCKED with no unlock time — the unconditional vecUnachieved insert
overwrites the achieved entry, contradicting "the achieved status wins"
for the vecHighlight case. -/
theorem librarycache_merge_counterexample :
    (parse_librarycache_achievements 730 "G"
        [{ name := "k", display_name := "K", description := none, icon := none,
           icon_gray := none, hidden := none }] none
        [{ strID := some "k", bAchieved := some true, rtUnlocked := some 5 }]
        [{ strID := some "k", bAchieved := none, rtUnlocked := none }]
        [] 0).map (fun a => (a.achievement_id, a.achieved, a.unlock_time)) =
      [("k", false, none)] := by
  rfl

/-- C3 (amended): the achieved status wins only between the two lists
processed last — a key of the unachieved list that also appears (achieved)
in vecAchievedHidden is emitted unlocked; a key achieved in vecHighlight
but also present in vecUnachieved ends locked (the counterexample). -/
theorem librarycache_hidden_achieved_wins (vh vu vah : List CacheEntry)
    (schema : List SchemaEntry) (gp : Option (List (String × Int)))
    (app_id : Nat) (game_name : String) (now : Int) (s : SchemaEntry)
    (hs : s ∈ schema)
    (_hvu : ∃ e ∈ vu, e.strID = some s.name)
    (hvah : ∃ e ∈ vah, e.strID = some s.name)
    (hall : ∀ e ∈ vah, e.strID = some s.name → e.bAchieved.getD true = true) :
    ∃ a ∈ parse_librarycache_achievements app_id game_name schema gp vh vu vah now,
      a.achievement_id = s.name ∧ a.achieved = true := by
  obtain ⟨t, hm⟩ := foldl_achievedHiddenStep_achieved s.name vah hvah hall
    (vu.foldl unachievedStep (vh.foldl highlightStep []))
  refine ⟨_, List.mem_map_of_mem _ hs, rfl, ?_⟩
  show ((alGet (build_unlocked_map vh vu vah) s.name).getD (false, none)).1 = true
  simp only [build_unlocked_map]
  rw [hm]
  rfl

/-- C3 witness: the amended statement at a concrete cache in which "k" sits
in both vecUnachieved and vecAchievedHidden — the emitted row for "k" is
unlocked. -/
theorem librarycache_hidden_achieved_wins_witness :
    ∃ a ∈ parse_librarycache_achievements 730 "G"
        [{ name := "k", display_name := "K", description := none, icon := none,
           icon_gray := none, hidden := none }] none
        []
        [{ strID := some "k", bAchieved := none, rtUnlocked := none }]
        [{ strID := some "k", bAchieved := some true, rtUnlocked := some 7 }] 1,
      a.achievement_id = "k" ∧ a.achieved = true :=
  librarycache_hidden_achieved_wins []
    [{ strID := some "k", bAchieved := none, rtUnlocked := none }]
    [{ strID := some "k", bAchieved := some true, rtUnlocked := some 7 }]
    [{ name := "k", display_name := "K", description := none, icon := none,
       icon_gray := none, hidden := none }] none 730 "G" 1
    { name := "k", display_name := "K", description := none, icon := none,
      icon_gray := none, hidden := none }
    (by decide) (by decide) (by decide) (by decide)

/-! ## C4: orchestrator behaviour when the bound provider file is missing -/

/-- C4 counterexample: the game's rows are bound to Steamtools whose
librarycache file is missing, while an Online-fix INI exists; the
orchestrator binds Online-fix instead of inserting the game into pending
as the claim requires. -/
theorem start_watching_missing_file_counterexample :
    start_watching_game
        { onlinefixExists := true, steamUserConfigured := true, librarycacheExists := false,
          appdataAvailable := true, goldbergExists := false } 730
        [{ id := some 1, app_id := 730, game_name := "G", achievement_id := "a1",
           display_name := "A", description := "", icon_url := none, icon_gray_url := none,
           hidden := false, achieved := false, unlock_time := none, source := "Steamtools",
           last_updated := 0, global_unlock_percentage := none }] =
      WatchOutcome.watched SourceType.OnlineFix ∧
    start_watching_game
        { onlinefixExists := true, steamUserConfigured := true, librarycacheExists := false,
          appdataAvailable := true, goldbergExists := false } 730
        [{ id := some 1, app_id := 730, game_name := "G", achievement_id := "a1",
           display_name := "A", description := "", icon_url := none, icon_gray_url := none,
           hidden := false, achieved := false, unlock_time := none, source := "Steamtools",
           last_updated := 0, global_unlock_percentage := none }] ≠
      WatchOutcome.pending := by
  exact ⟨rfl, by decide⟩

/-- C4 (amended): on Started for a game with rows, the orchestrator probes
the provider of the first row; when that provider's file is missing it
falls through to the full priority discovery, binding whichever provider
that finds — the game reaches pending exactly when the priority search
also finds nothing. -/
theorem start_watching_fallback (fs : FsView) (app_id : Nat) (rows : List Achievement)
    (first_ach : Achievement) (hrows : rows.head? = some first_ach)
    (hmiss : find_specific_source fs first_ach.source = none) :
    (start_watching_game fs app_id rows = WatchOutcome.pending ↔
      find_achievement_source fs app_id = none) ∧
    ∀ s, find_achievement_source fs app_id = some s →
      start_watching_game fs app_id rows = WatchOutcome.watched s := by
  simp only [start_watching_game, hrows, hmiss]
  cases hfa : find_achievement_source fs app_id with
  | none => simp
  | some src => simp

/-- C4 witness: the amended statement at the counterexample configuration,
where the priority search finds the Online-fix file. -/
theorem start_watching_fallback_witness :
    (start_watching_game
        { onlinefixExists := true, steamUserConfigured := true, librarycacheExists := false,
          appdataAvailable := true, goldbergExists := false } 730
        [{ id := some 1, app_id := 730, game_name := "G", achievement_id := "a1",
           display_name := "A", description := "", icon_url := none, icon_gray_url := none,
           hidden := false, achieved := false, unlock_time := none, source := "Steamtools",
           last_updated := 0, global_unlock_percentage := none }] = WatchOutcome.pending ↔
      find_achievement_source
        { onlinefixExists := true, steamUserConfigured := true, librarycacheExists := false,
          appdataAvailable := true, goldbergExists := false } 730 = none) ∧
    ∀ s, find_achievement_source
        { onlinefixExists := true, steamUserConfigured := true, librarycacheExists := false,
          appdataAvailable := true, goldbergExists := false } 730 = some s →
      start_watching_game
        { onlinefixExists := true, steamUserConfigured := true, librarycacheExists := false,
          appdataAvailable := true, goldbergExists := false } 730
        [{ id := some 1, app_id := 730, game_name := "G", achievement_id := "a1",
           display_name := "A", description := "", icon_url := none, icon_gray_url := none,
           hidden := false, achieved := false, unlock_time := none, source := "Steamtools",
           last_updated := 0, global_unlock_percentage := none }] =
        WatchOutcome.watched s :=
  start_watching_fallback _ 730 _ _ rfl rfl

/-! ## C5: the unlock-time/unlocked invariant across write operations -/

/-- `update_achievement_status` keeps the unlock-time invariant provided the
caller's pair itself satisfies it. -/
theorem update_achievement_status_preserves (db : Database) (rid : Int) (flag : Bool)
    (t : Option Int) (now : Int) (hdb : ∀ a ∈ db, UnlockTimeInv a)
    (harg : t.isSome → flag = true) :
    ∀ a ∈ update_achievement_status db rid flag t now, UnlockTimeInv a := by
  intro a ha
  rcases List.mem_map.mp ha with ⟨b, hb, rfl⟩
  by_cases hid : b.id = some rid
  · simp only [if_pos hid]
    intro hne
    exact harg (Option.ne_none_iff_isSome.mp hne)
  · simp only [if_neg hid]
    exact hdb b hb

/-- A fold whose step preserves the unlock-time invariant preserves it. -/
theorem foldl_preserves_inv {β : Type} (step : Database → β → Database)
    (hstep : ∀ acc b, (∀ a ∈ acc, UnlockTimeInv a) → ∀ a ∈ step acc b, UnlockTimeInv a) :
    ∀ (l : List β) (acc : Database), (∀ a ∈ acc, UnlockTimeInv a) →
      ∀ a ∈ l.foldl step acc, UnlockTimeInv a := by
  intro l
  induction l with
  | nil => intro acc hacc; exact hacc
  | cons b l ih =>
    intro acc hacc
    exact ih _ (hstep acc b hacc)

/-- C5 counterexample: the Goldberg scanner at an entry with
`earned = false` but `earned_time = 100` produces a LOCKED row whose
unlock_time is set — the flag and time are copied independently, violating
the claimed implication. -/
theorem unlock_time_without_achieved_counterexample :
    (scan_goldberg_achievements 730 "G" [] none
        [("k", { earned := some false, earned_time := some 100 })] 5).map
      (fun a => (a.achieved, a.unlock_time)) = [(false, some 100)] := by
  rfl

/-- C5 (amended): rows produced by the watcher transition and restore
(which always pair a time with achieved = true) satisfy "unlock_time set ⟹
unlocked" unconditionally, and the generic status update does whenever the
caller's pair does; Goldberg ingestion, however, copies flag and time
independently from the source file and satisfies the implication only when
the file does (an unachieved entry carrying a positive time yields a
violating row — the counterexample). -/
theorem unlock_time_invariant_amended (app_id : Nat) (game_name : String)
    (schema_pairs : List (String × (String × String)))
    (gp : Option (List (String × Int)))
    (entries : List (String × GoldbergEntry)) (now : Int)
    (hsrc : ∀ e ∈ entries,
      (posFilter e.2.earned_time).isSome → e.2.earned.getD false = true)
    (db : Database) (rid : Int) (flag : Bool) (t : Option Int)
    (hdb : ∀ a ∈ db, UnlockTimeInv a)
    (harg : t.isSome → flag = true)
    (db2 : Database) (g2 : Nat) (backup : List (String × Option Int))
    (hdb2 : ∀ a ∈ db2, UnlockTimeInv a) :
    (∀ a ∈ scan_goldberg_achievements app_id game_name schema_pairs gp entries now,
      UnlockTimeInv a) ∧
    (∀ a ∈ update_achievement_status db rid flag t now, UnlockTimeInv a) ∧
    (∀ a ∈ restore_from_backup db2 g2 backup now, UnlockTimeInv a) := by
  refine ⟨?_, update_achievement_status_preserves db rid flag t now hdb harg, ?_⟩
  · intro a ha
    rcases List.mem_map.mp ha with ⟨e, he, rfl⟩
    intro hne
    exact hsrc e he (Option.ne_none_iff_isSome.mp hne)
  · refine foldl_preserves_inv _ ?_ _ db2 hdb2
    intro acc b hacc
    dsimp only
    split
    · split
      · exact update_achievement_status_preserves _ _ _ _ _ hacc (fun _ => rfl)
      · exact hacc
    · exact hacc

/-- C5 witness: the amended statement at concrete inputs — a Goldberg file
whose single entry is earned with time 3, a status update unlocking row 1
at time 2, and a restore over an empty backup. -/
theorem unlock_time_invariant_amended_witness :
    (∀ a ∈ scan_goldberg_achievements 730 "G" [] none
        [("k", { earned := some true, earned_time := some 3 })] 5, UnlockTimeInv a) ∧
    (∀ a ∈ update_achievement_status [] 1 true (some 2) 5, UnlockTimeInv a) ∧
    (∀ a ∈ restore_from_backup [] 7 [] 5, UnlockTimeInv a) :=
  unlock_time_invariant_amended 730 "G" [] none
    [("k", { earned := some true, earned_time := some 3 })] 5 (by decide)
    [] 1 true (some 2) (by simp) (fun _ => rfl) [] 7 [] (by simp)

/-! ## C6: persistence of a watcher-detected unlock -/

/-- C6 failing run: a single locked Goldberg row for key "k3" with no
stored percentage; the file reports "k3" unlocked at 1700000000 and the
global-rates fetch returns 42 for it. The watcher emits the UnlockEvent —
but the percentage-update upsert writes the stale pre-unlock row back, so
the persisted row ends LOCKED with no unlock time instead of unlocked at
the event's time. -/
theorem watcher_percentage_upsert_reverts_unlock :
    ((check_for_unlocks 730 "G" "Goldberg"
        [{ id := some 1, app_id := 730, game_name := "G", achievement_id := "k3",
           display_name := "K3", description := "", icon_url := none, icon_gray_url := none,
           hidden := false, achieved := false, unlock_time := none, source := "Goldberg",
           last_updated := 0, global_unlock_percentage := none }]
        [("k3", 1700000000)] (some [("k3", 42)]) 5).1.map
      (fun e => (e.achievement_id, e.unlock_time)) = [("k3", 1700000000)]) ∧
    ((check_for_unlocks 730 "G" "Goldberg"
        [{ id := some 1, app_id := 730, game_name := "G", achievement_id := "k3",
           display_name := "K3", description := "", icon_url := none, icon_gray_url := none,
           hidden := false, achieved := false, unlock_time := none, source := "Goldberg",
           last_updated := 0, global_unlock_percentage := none }]
        [("k3", 1700000000)] (some [("k3", 42)]) 5).2.map
      (fun a => (a.achieved, a.unlock_time)) = [(false, none)]) :=
  ⟨rfl, rfl⟩

/-! ## C7: excluded games are never started and never watched -/

/-- A Started event can only carry a game that survived the exclusion
filter of `get_running_game`. -/
theorem check_steam_started_not_excluded (exclusions : List Nat) (s : MonitorState)
    (procs : List GameInfo) (g : GameInfo)
    (h : (check_steam exclusions s procs).1 = some (GameEvent.Started g)) :
    exclusions.contains g.app_id = false := by
  cases hl : s.last_running_appid with
  | none =>
    cases hrun : get_running_game exclusions procs with
    | none => simp [check_steam, hl, hrun] at h
    | some game =>
      have hg : game = g := by
        simpa [check_steam, hl, hrun] using h
      subst hg
      have hfind := hrun
      unfold get_running_game at hfind
      have hp := List.find?_some hfind
      simp only [Bool.and_eq_true, Bool.not_eq_true'] at hp
      exact hp.2
  | some old_id =>
    cases hrun : get_running_game exclusions procs with
    | none =>
      cases hc : s.current_game <;> simp [check_steam, hl, hrun, hc] at h
    | some game =>
      by_cases hne : old_id ≠ game.app_id
      · cases hc : s.current_game <;> simp [check_steam, hl, hrun, hc, hne] at h
      · simp [check_steam, hl, hrun, hne] at h

/-- No Started event of a monitor run carries an excluded game. -/
theorem run_monitor_started_not_excluded (exclusions : List Nat) :
    ∀ (trace : List (List GameInfo)) (s : MonitorState) (g : GameInfo),
      GameEvent.Started g ∈ run_monitor exclusions s trace →
      exclusions.contains g.app_id = false := by
  intro trace
  induction trace with
  | nil =>
    intro s g h
    simp [run_monitor] at h
  | cons procs rest ih =>
    intro s g h
    simp only [run_monitor] at h
    rcases List.mem_append.mp h with h1 | h2
    · have hev : (check_steam exclusions s procs).1 = some (GameEvent.Started g) := by
        cases ho : (check_steam exclusions s procs).1 with
        | none => rw [ho] at h1; simp at h1
        | some ev =>
          rw [ho] at h1
          simp at h1
          rw [h1]
      exact check_steam_started_not_excluded exclusions s procs g hev
    · exact ih _ g h2

/-- C7 (spec-modelled exclusion filter): a game in the persisted Exclusion
set never appears in a Started event of any monitor run, and consequently
no watcher is ever created for it by the orchestration loop. -/
theorem excluded_game_never_started_never_watched (exclusions : List Nat) (app : Nat)
    (hex : app ∈ exclusions) (s : MonitorState) (trace : List (List GameInfo))
    (fs : FsView) (rowsOf : Nat → List Achievement) :
    (∀ g, GameEvent.Started g ∈ run_monitor exclusions s trace → g.app_id ≠ app) ∧
    app ∉ watchers_created fs rowsOf (run_monitor exclusions s trace) := by
  have hmain : ∀ g, GameEvent.Started g ∈ run_monitor exclusions s trace →
      g.app_id ≠ app := by
    intro g hg heq
    have hc := run_monitor_started_not_excluded exclusions trace s g hg
    rw [heq] at hc
    have : app ∉ exclusions := by simpa using hc
    exact this hex
  refine ⟨hmain, ?_⟩
  intro hmem
  rcases List.mem_filterMap.mp hmem with ⟨e, he, hfe⟩
  cases e with
  | Started g =>
    have hga : g.app_id = app := by
      cases hw : start_watching_game fs g.app_id (rowsOf g.app_id) with
      | watched src =>
        simp only [hw] at hfe
        simpa using hfe
      | pending => simp [hw] at hfe
    exact hmain g he hga
  | Ended g => simp at hfe

/-- C7 witness: with game 42 excluded and its process running, the monitor
run emits no Started(42) and creates no watcher for 42. -/
theorem excluded_game_never_started_never_watched_witness :
    (∀ g, GameEvent.Started g ∈ run_monitor [42]
        { last_running_appid := none, current_game := none }
        [[{ app_id := 42, name := "X" }]] → g.app_id ≠ 42) ∧
    42 ∉ watchers_created
      { onlinefixExists := true, steamUserConfigured := false, librarycacheExists := false,
        appdataAvailable := false, goldbergExists := false } (fun _ => [])
      (run_monitor [42] { last_running_appid := none, current_game := none }
        [[{ app_id := 42, name := "X" }]]) :=
  excluded_game_never_started_never_watched [42] 42 (by decide) _ _ _ _

/-! ## C8: EmulatorB trailing-number binding -/

/-- C8: for an unlocked Online-fix section with no exact api-name match
whose name ends in digits reading N, the resolution binds the N-th schema
entry (1-based) when 1 ≤ N ≤ |schema| and binds nothing otherwise. -/
theorem onlinefix_numeric_binding (schema : List (String × String × String))
    (sec : String) (hno : ∀ t ∈ schema, t.1 ≠ sec)
    (hds : trailingDigits sec ≠ []) :
    resolve_section schema sec =
      if 0 < digitsToNat (trailingDigits sec) ∧
          digitsToNat (trailingDigits sec) ≤ schema.length
      then some (digitsToNat (trailingDigits sec) - 1) else none := by
  have hfind : schema.reverse.find? (fun t => t.1 == sec) = none := by
    rw [List.find?_eq_none]
    intro x hx hxx
    exact hno x (List.mem_reverse.mp hx) (by simpa using hxx)
  cases hd : trailingDigits sec with
  | nil => exact absurd hd hds
  | cons c cs => simp only [resolve_section, hfind, hd, List.length_map]

/-- C8 witness: with a 10-entry schema and section "ACH_7", the binding is
the 7th schema entry (0-based index 6). -/
theorem onlinefix_numeric_binding_witness :
    resolve_section
      [("a", "A", ""), ("b", "B", ""), ("c", "C", ""), ("d", "D", ""), ("e", "E", ""),
       ("f", "F", ""), ("g", "G", ""), ("h", "H", ""), ("i", "I", ""), ("j", "J", "")]
      "ACH_7" = some 6 := by
  have h := onlinefix_numeric_binding
    [("a", "A", ""), ("b", "B", ""), ("c", "C", ""), ("d", "D", ""), ("e", "E", ""),
     ("f", "F", ""), ("g", "G", ""), ("h", "H", ""), ("i", "I", ""), ("j", "J", "")]
    "ACH_7" (by decide) (by decide)
  rw [h]
  decide

/-! ## C9: a game switch emits only Ended and records the new game -/

/-- Polls that keep observing the same running game produce no events (the
state is already bound to that game). -/
theorem run_monitor_same_game_silent (exclusions : List Nat) (h : GameInfo) :
    ∀ (trace : List (List GameInfo)) (s : MonitorState),
      s.last_running_appid = some h.app_id →
      (∀ procs ∈ trace, get_running_game exclusions procs = some h) →
      run_monitor exclusions s trace = [] := by
  intro trace
  induction trace with
  | nil => intro s _ _; rfl
  | cons procs rest ih =>
    intro s hs hall
    have hrun : get_running_game exclusions procs = some h :=
      hall procs (List.mem_cons_self _ _)
    have hstep : check_steam exclusions s procs = (none, s) := by
      simp [check_steam, hs, hrun]
    have hrest := ih s hs (fun p hp => hall p (List.mem_cons_of_mem _ hp))
    simp [run_monitor, hstep, hrest]

/-- C9: when a poll observes H running while G (≠ H) was recorded, the
monitor emits only Ended(G) at that poll and immediately records H; no
later poll emits Started(H) while H keeps running. -/
theorem game_switch_emits_only_ended (exclusions : List Nat) (s : MonitorState)
    (G H : GameInfo) (procs : List GameInfo)
    (hlast : s.last_running_appid = some G.app_id)
    (hcur : s.current_game = some G)
    (hrun : get_running_game exclusions procs = some H)
    (hne : H.app_id ≠ G.app_id) :
    check_steam exclusions s procs =
      (some (GameEvent.Ended G),
        { last_running_appid := some H.app_id, current_game := some H }) ∧
    ∀ trace : List (List GameInfo),
      (∀ procs2 ∈ trace, get_running_game exclusions procs2 = some H) →
      run_monitor exclusions
        { last_running_appid := some H.app_id, current_game := some H } trace = [] := by
  constructor
  · simp [check_steam, hlast, hcur, hrun, Ne.symm hne]
  · intro trace hall
    exact run_monitor_same_game_silent exclusions H trace _ rfl hall

/-- C9 witness: the statement at a concrete switch from game 1 to game 2,
followed by two further polls still observing game 2. -/
theorem game_switch_emits_only_ended_witness :
    check_steam [] { last_running_appid := some 1, current_game := some { app_id := 1, name := "g" } }
        [{ app_id := 2, name := "h" }] =
      (some (GameEvent.Ended { app_id := 1, name := "g" }),
        { last_running_appid := some 2, current_game := some { app_id := 2, name := "h" } }) ∧
    ∀ trace : List (List GameInfo),
      (∀ procs2 ∈ trace, get_running_game [] procs2 = some { app_id := 2, name := "h" }) →
      run_monitor []
        { last_running_appid := some 2, current_game := some { app_id := 2, name := "h" } }
        trace = [] :=
  game_switch_emits_only_ended [] _ { app_id := 1, name := "g" } { app_id := 2, name := "h" }
    [{ app_id := 2, name := "h" }] rfl rfl rfl (by decide)

/-! ## C10: watcher unlock extraction always carries a positive time -/

/-- C10: every pair produced by the three unlock-extraction parsers has a
strictly positive unlock time — a missing or non-positive source timestamp
is replaced by the (positive) current epoch time. -/
theorem watcher_unlock_times_positive (sections : List IniSection)
    (vh vah : List CacheEntry) (entries : List (String × GoldbergEntry))
    (now : Int) (hnow : 0 < now) :
    (∀ p ∈ parse_onlinefix_unlocks sections now, 0 < p.2) ∧
    (∀ p ∈ parse_librarycache_unlocks vh vah now, 0 < p.2) ∧
    (∀ p ∈ parse_goldberg_unlocks entries now, 0 < p.2) := by
  refine ⟨?_, ?_, ?_⟩
  · intro p hp
    rcases List.mem_filterMap.mp hp with ⟨sec, hsec, hf⟩
    dsimp only at hf
    split at hf
    · injection hf with hf'
      subst hf'
      exact posFilter_getD_pos _ _ hnow
    · exact absurd hf (by simp)
  · intro p hp
    rcases List.mem_append.mp hp with hp1 | hp1 <;>
    · rcases List.mem_filterMap.mp hp1 with ⟨a, ha, hf⟩
      dsimp only at hf
      split at hf
      · rcases Option.map_eq_some'.mp hf with ⟨id, hid, hp2⟩
        subst hp2
        exact posFilter_getD_pos _ _ hnow
      · exact absurd hf (by simp)
  · intro p hp
    rcases List.mem_filterMap.mp hp with ⟨e, he, hf⟩
    split at hf
    · injection hf with hf'
      subst hf'
      exact posFilter_getD_pos _ _ hnow
    · exact absurd hf (by simp)

/-- C10 witness: the statement at a file with a zero timestamp, a negative
rtUnlocked and a missing earned_time — every produced time is the
substituted positive epoch time 1. -/
theorem watcher_unlock_times_positive_witness :
    (∀ p ∈ parse_onlinefix_unlocks
        [{ name := "s", achieved_raw := some "true", timestamp_val := some 0 }] 1,
      0 < p.2) ∧
    (∀ p ∈ parse_librarycache_unlocks []
        [{ strID := some "k", bAchieved := none, rtUnlocked := some (-3) }] 1, 0 < p.2) ∧
    (∀ p ∈ parse_goldberg_unlocks
        [("k", { earned := some true, earned_time := none })] 1, 0 < p.2) :=
  watcher_unlock_times_positive _ _ _ _ 1 (by decide)

end SSM
